import Mathlib

/-!
Verification of the bndl compute engine against its specification.

Each section embeds a part of the Python source shallowly in Lean:
pure functions become Lean functions, mutation becomes explicit state
passing, exceptions become `Option`/`Except` results.  The claim
theorems at the bottom settle the specification claims against these
embeddings.
-/

namespace Bndl

/-! ### bisect.bisect_left

Embedding of CPython `bisect_left(a, x)`:
`lo = 0; hi = len(a); while lo < hi: mid = (lo+hi)//2;`
`if a[mid] < x: lo = mid+1 else: hi = mid; return lo`.
The loop is embedded with fuel; `hi - lo` shrinks every iteration so
`a.length` fuel always suffices. -/

def blGo {κ : Type} [LinearOrder κ] (a : List κ) (x : κ) : Nat → Nat → Nat → Nat
  | 0, lo, _ => lo
  | fuel + 1, lo, hi =>
    if lo < hi then
      let mid := (lo + hi) / 2
      if a.getD mid x < x then blGo a x fuel (mid + 1) hi
      else blGo a x fuel lo mid
    else lo

def bisect_left {κ : Type} [LinearOrder κ] (a : List κ) (x : κ) : Nat :=
  blGo a x a.length 0 a.length

/-! ### RangePartitioner (src/bndl/compute/dataset.py:1318-1326)

`boundary = bisect_left(boundaries, value)`;
`return len(boundaries) - boundary if self.reverse else boundary`. -/

structure RangePartitioner (κ : Type) where
  boundaries : List κ
  reverse : Bool

def RangePartitioner.call {κ : Type} [LinearOrder κ] (p : RangePartitioner κ) (v : κ) : Nat :=
  let boundary := bisect_left p.boundaries v
  if p.reverse then p.boundaries.length - boundary else boundary

/-! ### Python sorted(key=key, reverse=reverse)

`sorted` with a key function sorts ascending by key, descending when
`reverse` is set; stability does not matter for the claims proved here. -/

def pySorted {α κ : Type} [LinearOrder κ] (key : α → κ) (reverse : Bool) (l : List α) : List α :=
  if reverse then List.insertionSort (fun a b => key b ≤ key a) l
  else List.insertionSort (fun a b => key a ≤ key b) l

/-! ### Dataset.sort (src/bndl/compute/dataset.py:867-914)

`sort` counts the dataset; if the size is 0 it returns `self`.
Otherwise it samples the data (the sample outcome is a parameter here,
the RNG being external), extracts `pcount - 1` boundaries
`samples[len(samples)*(i+1)//pcount]` from the sorted distinct samples,
shuffles through a `RangePartitioner` over those boundaries — each
element goes to bucket `partitioner(key(e)) % pcount` — and sorts each
destination bucket with `sorted(key=key, reverse=reverse)`.  A Python
`IndexError` while indexing the samples is `none`. -/

def traverseOpt {β κ : Type} (f : β → Option κ) : List β → Option (List κ)
  | [] => some []
  | b :: t =>
    match f b with
    | none => none
    | some v => (traverseOpt f t).map (v :: ·)

def sortBoundaries {κ : Type} (samples : List κ) (pcount : Nat) : Option (List κ) :=
  traverseOpt (fun i => samples.get? (samples.length * (i + 1) / pcount)) (List.range (pcount - 1))

def shuffleBucket {α κ : Type} [LinearOrder κ] (key : α → κ) (p : RangePartitioner κ)
    (pcount : Nat) (data : List α) (j : Nat) : List α :=
  data.filter (fun e => p.call (key e) % pcount == j)

def sortCollect {α κ : Type} [LinearOrder κ] (key : α → κ) (reverse : Bool) (pcount : Nat)
    (boundaries : List κ) (data : List α) : List α :=
  let p : RangePartitioner κ := ⟨boundaries, reverse⟩
  ((List.range pcount).map (fun j => pySorted key reverse (shuffleBucket key p pcount data j))).flatten

def sortDataset {α κ : Type} [LinearOrder κ] (key : α → κ) (reverse : Bool) (pcount : Nat)
    (samples : List κ) (data : List α) : Option (List α) :=
  if data.length = 0 then some data
  else (sortBoundaries samples pcount).map (fun bs => sortCollect key reverse pcount bs data)

/-! ### Shuffle writer (src/bndl/compute/dataset.py:1303-1405)

Bucket classes of the source: `ListBucket(list)`, `SetBucket(set)`,
`SortedListBucket(SortedList)`. -/

inductive BucketType : Type
  | listBucket
  | setBucket
  | sortedListBucket
deriving DecidableEq

/-- `ShuffleWritingDataset.__init__` (dataset.py:1330-1338): the fields a
shuffle-writing dataset records.  `hasComb` stands for `comb is not None`. -/
structure ShuffleWritingDataset : Type where
  pcount : Nat
  bucket : BucketType
  hasComb : Bool

/-- `ShuffleWritingDataset.__init__`: `self.pcount = pcount or len(self.src.parts())`;
`self.comb = comb`; `self.bucket = ListBucket` (the `bucket` argument is not
consulted).  Python `x or y` takes `y` when `x` is `None` or `0`. -/
def mkShuffleWritingDataset (srcPartCount : Nat) (pcount : Option Nat)
    (bucket : Option BucketType) (hasComb : Bool) : ShuffleWritingDataset :=
  { pcount :=
      match pcount with
      | some n => if n = 0 then srcPartCount else n
      | none => srcPartCount
    bucket := BucketType.listBucket
    hasComb := hasComb }

/-- `Dataset.distinct` (dataset.py:822-835) calls
`self.shuffle(pcount, bucket=SetBucket, comb=set)`; this is the
shuffle-writing dataset it builds (`comb` is set). -/
def distinctShuffleWriter (srcPartCount : Nat) (pcount : Option Nat) : ShuffleWritingDataset :=
  mkShuffleWritingDataset srcPartCount pcount (some BucketType.setBucket) true

/-- `ShuffleWritingPartition._ensure_buckets` (dataset.py:1370-1376):
`buckets = worker.buckets.get(self.dset.id)`;
`if not buckets: buckets = [self.dset.bucket() for _ in range(self.dset.pcount)]`.
Buckets are on `ListBucket` (list) contents, per `__init__` above. -/
def ensureBuckets {α : Type} (existing : Option (List (List α))) (pcount : Nat) :
    List (List α) :=
  match existing with
  | some bs => if bs.isEmpty then List.replicate pcount [] else bs
  | none => List.replicate pcount []

/-- One step of the ingest loop of `ShuffleWritingPartition._materialize`
(dataset.py:1379-1405): `buckets[select_bucket(element) % bucket_count].add(element)`
with `select_bucket(e) = partitioner(key(e))` (`key` is always set, the
default being `identity`). -/
def ingestOne {α κ : Type} (key : α → κ) (partitioner : κ → Nat) (bucketCount : Nat)
    (bs : List (List α)) (e : α) : List (List α) :=
  let i := partitioner (key e) % bucketCount
  bs.set i (bs.getD i [] ++ [e])

/-- `ShuffleWritingPartition._materialize` (dataset.py:1379-1405).  The
worker's prior bucket vector for this dataset id is `existing`; the
source partition's stream is `src`.  When `bucket_count` is zero the
source does `buckets[0].extend(data)` on the empty bucket list, a Python
`IndexError`: embedded as `none`. -/
def shuffleWriteMaterialize {α κ : Type} (pcount : Nat) (key : α → κ) (partitioner : κ → Nat)
    (comb : Option (List α → List α)) (existing : Option (List (List α))) (src : List α) :
    Option (List (List α)) :=
  let buckets := ensureBuckets existing pcount
  let bucketCount := buckets.length
  if bucketCount ≠ 0 then
    let ingested := src.foldl (ingestOne key partitioner bucketCount) buckets
    match comb with
    | some c => some (ingested.map (fun b => if b.isEmpty then b else c b))
    | none => some ingested
  else
    none

/-! ### Transport frame (src/bndl/net/connection.py:114-207)

Bytes are `Nat`s below 256; `struct.pack('I', n)` is a 4-byte unsigned
int in the machine byte order (both sides use `sys.byteorder`, embedded
as little-endian). -/

def packU32 (n : Nat) : List Nat :=
  [n % 256, n / 256 % 256, n / 256 ^ 2 % 256, n / 256 ^ 3 % 256]

def unpackLE (l : List Nat) : Nat :=
  l.foldr (fun b acc => b + 256 * acc) 0

/-- The bytes `Connection.send` writes for one attachment
(connection.py:140-147): a uint32 key length, the key, a uint32 size
and the attachment bytes (the sender callback writes exactly the
declared size). -/
def encodeAtt (kv : List Nat × List Nat) : List Nat :=
  packU32 kv.1.length ++ kv.1 ++ packU32 kv.2.length ++ kv.2

/-- `Connection.send` (connection.py:114-155), the bytes written for one
frame: a format byte `int(marshalled) + int(bool(attachments)) * 2`;
when attachments are present a uint32 count and the encoded
attachments; then a uint32 body length and the serialized body. -/
def sendFrame (marshalled : Bool) (attachments : List (List Nat × List Nat))
    (body : List Nat) : List Nat :=
  let fmt := (if marshalled then 1 else 0) + (if attachments.isEmpty then 0 else 1) * 2
  [fmt]
    ++ (if attachments.isEmpty then [] else
          packU32 attachments.length ++ (attachments.map encodeAtt).flatten)
    ++ packU32 body.length ++ body

/-- `Connection.send` checks `if not self.is_connected: raise NotConnected()`
before writing (connection.py:126-127). -/
inductive NetErr : Type
  | notConnected
  | incompleteRead
deriving DecidableEq

def sendConn (connected : Bool) (marshalled : Bool)
    (attachments : List (List Nat × List Nat)) (body : List Nat) :
    Except NetErr (List Nat) :=
  if connected then Except.ok (sendFrame marshalled attachments body)
  else Except.error NetErr.notConnected

/-- `StreamReader.readexactly(n)` under `Connection.recv`'s exception
handler (connection.py:171-207): the stream holds the bytes available
before EOF; on a shortfall `IncompleteReadError` carries the partial
bytes, and recv maps it to `NotConnected` when the partial read is
empty and re-raises the incomplete-read error otherwise. -/
def readexactly (n : Nat) (s : List Nat) : Except NetErr (List Nat × List Nat) :=
  let partialBytes := s.take n
  if partialBytes.length = n then Except.ok (partialBytes, s.drop n)
  else if partialBytes.isEmpty then Except.error NetErr.notConnected
  else Except.error NetErr.incompleteRead

/-- `Connection._recv_unpack('I')` (connection.py:158-161). -/
def recvU32 (s : List Nat) : Except NetErr (Nat × List Nat) := do
  let (b, rest) ← readexactly 4 s
  pure (unpackLE b, rest)

/-- The attachment loop of `Connection.recv` (connection.py:183-193):
per attachment a uint32 key length, the key, a uint32 size and the
attachment; insertion order is kept. -/
def recvAtts : Nat → List Nat → Except NetErr (List (List Nat × List Nat) × List Nat)
  | 0, s => Except.ok ([], s)
  | n + 1, s => do
    let (keylen, s) ← recvU32 s
    let (key, s) ← readexactly keylen s
    let (size, s) ← recvU32 s
    let (att, s) ← readexactly size s
    let (rest, s) ← recvAtts n s
    pure ((key, att) :: rest, s)

/-- `Connection.recv` (connection.py:164-207): the `NotConnected` guard,
the format byte with `marshalled = fmt & 1` and `has_attachments = fmt & 2`,
the attachment loop when bit 1 is set, then the uint32 body length and
the body.  Returns the parse and the unread remainder of the stream. -/
def recvFrame (connected : Bool) (s : List Nat) :
    Except NetErr ((Bool × List (List Nat × List Nat) × List Nat) × List Nat) :=
  if connected then do
    let (fb, s) ← readexactly 1 s
    let fmt := fb.headD 0
    let marshalled : Bool := fmt &&& 1 != 0
    let hasAtts : Bool := fmt &&& 2 != 0
    let (attachments, s) ←
      if hasAtts then do
        let (attCount, s) ← recvU32 s
        recvAtts attCount s
      else pure ([], s)
    let (bodyLen, s) ← recvU32 s
    let (body, s) ← readexactly bodyLen s
    pure ((marshalled, attachments, body), s)
  else Except.error NetErr.notConnected

/-! ### RMI disconnect (src/bndl/rmi/node.py:221-226)

`RMIPeerNode.handlers` maps `req_id → asyncio.Future`.  `disconnect`
runs `handler.set_exception(NotConnected())` on every handler and then
`self.handlers.clear()`.  `Future.set_exception` raises
`InvalidStateError` unless the future is pending. -/

inductive FutState : Type
  | pending
  | resolved
  | failed (e : NetErr)
deriving DecidableEq

inductive PyErr : Type
  | invalidState
  | unboundLocal
  | keyError
deriving DecidableEq

def setException (f : FutState) (e : NetErr) : Except PyErr FutState :=
  match f with
  | FutState.pending => Except.ok (FutState.failed e)
  | _ => Except.error PyErr.invalidState

def traverseE {β γ ε : Type} (f : β → Except ε γ) : List β → Except ε (List γ)
  | [] => Except.ok []
  | b :: t => do
    let v ← f b
    let rest ← traverseE f t
    pure (v :: rest)

/-- `RMIPeerNode.disconnect` (node.py:221-226), restricted to its effect
on the handler table: fail every registered future with `NotConnected`,
then clear the table.  Returns (futures after the loop, table after). -/
def disconnectRMI (handlers : List (Nat × FutState)) :
    Except PyErr (List (Nat × FutState) × List (Nat × FutState)) := do
  let updated ← traverseE
    (fun h => (setException h.2 NetErr.notConnected).map (fun f => (h.1, f))) handlers
  pure (updated, [])

/-! ### Accumulator service (src/bndl/compute/accumulate.py:32-61)

The service holds `id → weak accumulator` and `id → lock`.  The value
domain and Python's operator protocol are abstracted into `PyOps`: in
the source the operators act on whatever value the accumulator holds,
and `getattr(value, op)(value)` invokes a named method. -/

structure PyOps (V : Type) : Type where
  add : V → V → V
  sub : V → V → V
  mul : V → V → V
  div : V → V → V
  shl : V → V → V
  shr : V → V → V
  band : V → V → V
  bor : V → V → V
  callMethod : String → V → V → V

/-- The `if/elif` operator dispatch of `AccumulatorService._update_accumulator`
(accumulate.py:41-58). -/
def applyOp {V : Type} (ops : PyOps V) (op : String) (cur v : V) : V :=
  if op = "+" then ops.add cur v
  else if op = "-" then ops.sub cur v
  else if op = "*" then ops.mul cur v
  else if op = "/" then ops.div cur v
  else if op = "<" then ops.shl cur v
  else if op = ">" then ops.shr cur v
  else if op = "&" then ops.band cur v
  else if op = "|" then ops.bor cur v
  else ops.callMethod op cur v

def lookupA {V : Type} (accs : List (String × V)) (k : String) : Option V :=
  (accs.find? (fun p => p.1 == k)).map (fun p => p.2)

def setA {V : Type} (accs : List (String × V)) (k : String) (v : V) : List (String × V) :=
  accs.map (fun p => if p.1 == k then (k, v) else p)

/-- The body of `AccumulatorService._update_accumulator`
(accumulate.py:32-61) before its catch-all handler.  The first `try`
only logs a missing lock; control then reaches `with lock:` where the
name `lock` is unbound, a Python `UnboundLocalError`.  A missing
accumulator entry raises `KeyError`. -/
def updateAccumulatorBody {V : Type} (ops : PyOps V) (locks : List String)
    (accs : List (String × V)) (aid op : String) (v : V) :
    Except PyErr (List (String × V)) :=
  if aid ∈ locks then
    match lookupA accs aid with
    | some cur => Except.ok (setA accs aid (applyOp ops op cur v))
    | none => Except.error PyErr.keyError
  else Except.error PyErr.unboundLocal

/-- `AccumulatorService._update_accumulator` with its
`except Exception: logger.exception(...)` handler: any error is logged
and the accumulator map is left as it was. -/
def updateAccumulator {V : Type} (ops : PyOps V) (locks : List String)
    (accs : List (String × V)) (aid op : String) (v : V) : List (String × V) :=
  match updateAccumulatorBody ops locks accs aid op v with
  | Except.ok accs2 => accs2
  | Except.error _ => accs

/-! ### Task completion (src/bndl/execute/job.py:107-154)

A `concurrent.futures.Future` freshly created and completed by
`set_result` carries a result; `Task.future` starts out `None`.
`signal_stop` (from `Lifecycle`) is embedded as a stop flag, and
`datetime.now()` is the `now` parameter. -/

inductive TFut (ρ : Type) : Type
  | pending
  | result (r : ρ)
  | excepted
deriving DecidableEq

structure TaskState (ρ τ : Type) : Type where
  future : Option (TFut ρ)
  started_on : Option τ
  stopped : Bool
deriving DecidableEq

/-- `Task.done` (job.py:107-110): `self.future and self.future.done()`. -/
def TaskState.isDone {ρ τ : Type} (s : TaskState ρ τ) : Bool :=
  match s.future with
  | some (TFut.result _) => true
  | some TFut.excepted => true
  | some TFut.pending => false
  | none => false

/-- `Task.mark_done` (job.py:144-154): when not yet done, install a fresh
future completed with `result`, set `started_on` if unset, and signal
stop; otherwise fall through. -/
def markDone {ρ τ : Type} (s : TaskState ρ τ) (result : ρ) (now : τ) : TaskState ρ τ :=
  if s.isDone then s
  else
    { future := some (TFut.result result)
      started_on := some (s.started_on.getD now)
      stopped := true }

/-! ### Dataset.histogram (src/bndl/compute/dataset.py:461-508)

The dataset elements are embedded as rationals.  Two collaborators are
not under src/ and are modelled from the spec:

* `Stats` (`bndl.compute.stats`): Modelled from the spec: "compute
  min/max in a stats pass" — `count`, `min` and `max` of the data.
* `np.histogram(list(part), bins)[0]`: Modelled from the spec:
  "integer bin-count histogram ... Each partition computes a local
  histogram and the final result is a pairwise sum" — counts per
  half-open bin `edges[i] ≤ x < edges[i+1]`, the last bin closed, as
  numpy defines it. -/

def listMin (l : List ℚ) (d : ℚ) : ℚ := l.foldl min d
def listMax (l : List ℚ) (d : ℚ) : ℚ := l.foldl max d

def binCount (data : List ℚ) (lo hi : ℚ) (lastBin : Bool) : Nat :=
  (data.filter (fun x => decide (lo ≤ x) &&
    (if lastBin then decide (x ≤ hi) else decide (x < hi)))).length

def npHistogram (data : List ℚ) (edges : List ℚ) : List Nat :=
  (List.range (edges.length - 1)).map
    (fun i => binCount data (edges.getD i 0) (edges.getD (i + 1) 0) (i = edges.length - 2))

/-- `Dataset.histogram(bins)` with an integer `bins` argument
(dataset.py:461-508): `assert bins >= 1`; a stats pass for min/max/count;
`min == max or bins == 1` short-circuits to one bin; otherwise
`step = (max - min) / bins` and
`bins = [min + i * step for i in range(bins)] + [max]`, and the counts
are the pairwise sum of the per-partition `np.histogram` counts.  A
failed assert or an empty dataset (no stats) is `none`. -/
def histogramInt (data : List ℚ) (bins : Nat) : Option (List Nat × List ℚ) :=
  if data.isEmpty ∨ bins = 0 then none
  else
    let mn := listMin data (data.headD 0)
    let mx := listMax data (data.headD 0)
    let cnt := data.length
    if mn = mx ∨ bins = 1 then some ([cnt], [mn, mx])
    else
      let step := (mx - mn) / bins
      let edges := (List.range bins).map (fun i => mn + i * step) ++ [mx]
      some (npHistogram data edges, edges)

/-- Operator interpretation on `ℤ` used to instantiate the accumulator
theorems on a concrete value domain. -/
def intOps : PyOps ℤ :=
  { add := (· + ·), sub := (· - ·), mul := (· * ·), div := (· / ·)
    shl := fun a b => a * 2 ^ b.toNat, shr := fun a b => a / 2 ^ b.toNat
    band := fun a b => a.land b, bor := fun a b => a.lor b
    callMethod := fun _ a _ => a }

/-! ## Lemmas and claim theorems -/

section BisectLemmas

variable {κ : Type} [LinearOrder κ]

theorem blGo_bounds (a : List κ) (x : κ) :
    ∀ fuel lo hi, lo ≤ hi → lo ≤ blGo a x fuel lo hi ∧ blGo a x fuel lo hi ≤ hi := by
  intro fuel
  induction fuel with
  | zero => intro lo hi h; exact ⟨le_refl _, h⟩
  | succ n ih =>
    intro lo hi h
    simp only [blGo]
    by_cases hlh : lo < hi
    · simp only [hlh, if_true]
      by_cases hcmp : a.getD ((lo + hi) / 2) x < x
      · simp only [hcmp, if_true]
        have hr := ih ((lo + hi) / 2 + 1) hi (by omega)
        exact ⟨by omega, hr.2⟩
      · simp only [hcmp, if_false]
        have hr := ih lo ((lo + hi) / 2) (by omega)
        exact ⟨hr.1, by omega⟩
    · simp only [hlh, if_false]
      exact ⟨le_refl _, h⟩

theorem blGo_mono (a : List κ) {x y : κ} (hxy : x ≤ y) :
    ∀ fuel lo hi, hi ≤ a.length → blGo a x fuel lo hi ≤ blGo a y fuel lo hi := by
  intro fuel
  induction fuel with
  | zero => intro lo hi _; exact le_refl _
  | succ n ih =>
    intro lo hi hha
    simp only [blGo]
    by_cases hlh : lo < hi
    · simp only [hlh, if_true]
      have hmidlt : (lo + hi) / 2 < hi := by omega
      have hmidlen : (lo + hi) / 2 < a.length := lt_of_lt_of_le hmidlt hha
      have hget : a.getD ((lo + hi) / 2) x = a.getD ((lo + hi) / 2) y := by
        rw [List.getD_eq_getElem a x hmidlen, List.getD_eq_getElem a y hmidlen]
      by_cases hx : a.getD ((lo + hi) / 2) x < x
      · have hy : a.getD ((lo + hi) / 2) y < y := lt_of_lt_of_le (hget ▸ hx) hxy
        simp only [hx, hy, if_true]
        exact ih ((lo + hi) / 2 + 1) hi hha
      · by_cases hy : a.getD ((lo + hi) / 2) y < y
        · simp only [hx, hy, if_true, if_false]
          have h1 := (blGo_bounds a x n lo ((lo + hi) / 2) (by omega)).2
          have h2 := (blGo_bounds a y n ((lo + hi) / 2 + 1) hi (by omega)).1
          omega
        · simp only [hx, hy, if_false]
          exact ih lo ((lo + hi) / 2) (le_trans (le_of_lt hmidlt) hha)
    · simp only [hlh, if_false]
      exact le_refl _

theorem bisect_left_le_length (a : List κ) (x : κ) : bisect_left a x ≤ a.length :=
  (blGo_bounds a x a.length 0 a.length (Nat.zero_le _)).2

theorem bisect_left_mono (a : List κ) {x y : κ} (h : x ≤ y) :
    bisect_left a x ≤ bisect_left a y :=
  blGo_mono a h a.length 0 a.length (le_refl _)

theorem call_le_length (p : RangePartitioner κ) (v : κ) :
    p.call v ≤ p.boundaries.length := by
  unfold RangePartitioner.call
  by_cases hr : p.reverse
  · simp only [hr, if_true]; exact Nat.sub_le _ _
  · simp only [hr, if_false]; exact bisect_left_le_length _ _

theorem call_antitone_of_reverse (p : RangePartitioner κ) (hrev : p.reverse = true)
    {u v : κ} (huv : u ≤ v) : p.call v ≤ p.call u := by
  unfold RangePartitioner.call
  simp only [hrev, if_true]
  exact Nat.sub_le_sub_left (bisect_left_mono _ huv) _

theorem call_monotone_of_not_reverse (p : RangePartitioner κ) (hrev : p.reverse = false)
    {u v : κ} (huv : u ≤ v) : p.call u ≤ p.call v := by
  unfold RangePartitioner.call
  simp only [hrev, if_false, Bool.false_eq_true]
  exact bisect_left_mono _ huv

/-- Elements of a lower range-partitioner bucket sort before elements of a
higher bucket: ascending keys without `reverse`, descending keys with it. -/
theorem call_cross {α : Type} (key : α → κ) (p : RangePartitioner κ) {pcount : Nat}
    (hlen : p.boundaries.length < pcount) {a b : α} {j1 j2 : Nat}
    (ha : p.call (key a) % pcount = j1) (hb : p.call (key b) % pcount = j2)
    (hj : j1 < j2) :
    if p.reverse then key b ≤ key a else key a ≤ key b := by
  have hma : p.call (key a) % pcount = p.call (key a) :=
    Nat.mod_eq_of_lt (lt_of_le_of_lt (call_le_length p _) hlen)
  have hmb : p.call (key b) % pcount = p.call (key b) :=
    Nat.mod_eq_of_lt (lt_of_le_of_lt (call_le_length p _) hlen)
  have hcall : p.call (key a) < p.call (key b) := by omega
  by_cases hr : p.reverse
  · simp only [hr, if_true]
    by_contra hab
    exact absurd (call_antitone_of_reverse p hr (le_of_not_le hab)) (by omega)
  · simp only [hr, if_false, Bool.false_eq_true]
    by_contra hab
    exact absurd (call_monotone_of_not_reverse p (by simpa using hr) (le_of_not_le hab))
      (by omega)

end BisectLemmas

section SortedLemmas

variable {α κ : Type} [LinearOrder κ]

theorem pySorted_pairwise (key : α → κ) (reverse : Bool) (l : List α) :
    (pySorted key reverse l).Pairwise
      (fun a b => if reverse then key b ≤ key a else key a ≤ key b) := by
  cases reverse with
  | true =>
    simp only [pySorted, if_true]
    haveI : IsTotal α (fun a b => key b ≤ key a) := ⟨fun a b => le_total (key b) (key a)⟩
    haveI : IsTrans α (fun a b => key b ≤ key a) := ⟨fun _ _ _ h1 h2 => le_trans h2 h1⟩
    exact List.sorted_insertionSort _ l
  | false =>
    simp only [pySorted, if_false, Bool.false_eq_true]
    haveI : IsTotal α (fun a b => key a ≤ key b) := ⟨fun a b => le_total (key a) (key b)⟩
    haveI : IsTrans α (fun a b => key a ≤ key b) := ⟨fun _ _ _ h1 h2 => le_trans h1 h2⟩
    exact List.sorted_insertionSort _ l

theorem pySorted_mem (key : α → κ) (reverse : Bool) (l : List α) {x : α} :
    x ∈ pySorted key reverse l ↔ x ∈ l := by
  cases reverse <;> simp only [pySorted, if_true, if_false, Bool.false_eq_true] <;>
    exact (List.perm_insertionSort _ _).mem_iff

theorem traverseOpt_length {β κ' : Type} (f : β → Option κ') :
    ∀ (l : List β) (r : List κ'), traverseOpt f l = some r → r.length = l.length := by
  intro l
  induction l with
  | nil => intro r h; simp only [traverseOpt] at h; simp [← Option.some.inj h]
  | cons b t ih =>
    intro r h
    simp only [traverseOpt] at h
    cases hf : f b with
    | none => rw [hf] at h; exact absurd h (by simp)
    | some v =>
      rw [hf] at h
      cases ht : traverseOpt f t with
      | none => rw [ht] at h; exact absurd h (by simp)
      | some r' =>
        rw [ht] at h
        simp only [Option.map_some'] at h
        rw [← Option.some.inj h]
        simp [ih r' ht]

end SortedLemmas

/-- Claim C1: for every dataset and key function, after
`sort(key, reverse, pcount)` the fully-collected output is totally
ordered by key — for every adjacent pair `(a, b)` of output elements,
`key(a) ≤ key(b)` when `reverse` is false and `key(a) ≥ key(b)` when
`reverse` is true — and for a dataset of size 0, `sort` returns the
dataset itself.  The sample outcome is universally quantified, so the
statement covers every run in which `sort` completes. -/
theorem sort_totally_ordered {α κ : Type} [LinearOrder κ] (data : List α) (key : α → κ)
    (reverse : Bool) (pcount : Nat) (samples : List κ) (hp : 1 ≤ pcount) :
    (∀ out, sortDataset key reverse pcount samples data = some out →
      out.Chain' (fun a b => if reverse then key b ≤ key a else key a ≤ key b))
    ∧ (data.length = 0 → sortDataset key reverse pcount samples data = some data) := by
  refine ⟨?_, fun h => by simp [sortDataset, h]⟩
  intro out hout
  by_cases hd : data.length = 0
  · simp only [sortDataset, hd, if_true] at hout
    rw [← Option.some.inj hout]
    rw [List.length_eq_zero] at hd
    subst hd
    exact List.chain'_nil
  · simp only [sortDataset, hd, if_false] at hout
    cases hbs : sortBoundaries samples pcount with
    | none => rw [hbs] at hout; exact absurd hout (by simp)
    | some bs =>
      rw [hbs] at hout
      simp only [Option.map_some'] at hout
      have hlen : bs.length < pcount := by
        have := traverseOpt_length _ _ _ hbs
        rw [List.length_range] at this
        omega
      rw [← Option.some.inj hout]
      apply List.Pairwise.chain'
      unfold sortCollect
      rw [List.pairwise_flatten]
      constructor
      · intro l hl
        rw [List.mem_map] at hl
        obtain ⟨j, _, rfl⟩ := hl
        exact pySorted_pairwise key reverse _
      · rw [List.pairwise_map]
        refine (List.pairwise_lt_range pcount).imp ?_
        intro j1 j2 hj x hx y hy
        rw [pySorted_mem] at hx hy
        unfold shuffleBucket at hx hy
        rw [List.mem_filter] at hx hy
        have hxp : RangePartitioner.call ⟨bs, reverse⟩ (key x) % pcount = j1 := by
          have := hx.2; simpa using this
        have hyp : RangePartitioner.call ⟨bs, reverse⟩ (key y) % pcount = j2 := by
          have := hy.2; simpa using this
        simpa using call_cross key ⟨bs, reverse⟩ hlen hxp hyp hj

/-- Witness for C1 at a concrete input: sorting `[3, 1, 2]` into two
partitions with boundary samples `[1, 2, 3]` yields `[1, 2, 3]`, whose
adjacent pairs are ordered. -/
theorem sort_totally_ordered_witness :
    List.Chain' (fun a b : ℕ => if false then b ≤ a else a ≤ b) [1, 2, 3] :=
  (sort_totally_ordered [3, 1, 2] (fun n => n) false 2 [1, 2, 3] (by decide)).1
    [1, 2, 3] (by decide)

section ShuffleWriteLemmas

variable {α κ : Type}

theorem ingest_length (key : α → κ) (part : κ → Nat) (n : Nat) :
    ∀ (src : List α) (B : List (List α)),
      (src.foldl (ingestOne key part n) B).length = B.length := by
  intro src
  induction src with
  | nil => intro B; rfl
  | cons e t ih =>
    intro B
    rw [List.foldl_cons, ih]
    simp [ingestOne]

theorem ingest_getD (key : α → κ) (part : κ → Nat) {n : Nat} (hn : 0 < n) :
    ∀ (src : List α) (B : List (List α)), B.length = n → ∀ j, j < n →
      (src.foldl (ingestOne key part n) B).getD j []
        = B.getD j [] ++ src.filter (fun e => part (key e) % n == j) := by
  intro src
  induction src with
  | nil => intro B _ j _; simp
  | cons e t ih =>
    intro B hB j hj
    rw [List.foldl_cons]
    have hBlen : (ingestOne key part n B e).length = n := by simp [ingestOne, hB]
    rw [ih (ingestOne key part n B e) hBlen j hj, List.filter_cons]
    have hi : part (key e) % n < n := Nat.mod_lt _ hn
    by_cases hji : part (key e) % n = j
    · have : (part (key e) % n == j) = true := by simp [hji]
      rw [this]
      simp only [if_true]
      have hset : (ingestOne key part n B e).getD j [] = B.getD j [] ++ [e] := by
        simp only [ingestOne, List.getD_eq_getElem?_getD, List.getElem?_set, hji, if_true]
        rw [hB]
        simp [hji, hj]
      rw [hset, List.append_assoc]
      simp
    · have : (part (key e) % n == j) = false := by simp [hji]
      rw [this]
      simp only [if_false, Bool.false_eq_true]
      have hset : (ingestOne key part n B e).getD j [] = B.getD j [] := by
        simp [ingestOne, List.getD_eq_getElem?_getD, List.getElem?_set, hji]
      rw [hset]

theorem shuffleWrite_fresh_buckets (key : α → κ) (part : κ → Nat) {pcount : Nat}
    (hp : 0 < pcount) (src : List α) :
    src.foldl (ingestOne key part pcount) (List.replicate pcount [])
      = (List.range pcount).map (fun j => src.filter (fun e => part (key e) % pcount == j)) := by
  apply List.ext_getElem
  · rw [ingest_length]; simp
  · intro j h1 h2
    have hj : j < pcount := by
      rw [List.length_map, List.length_range] at h2; exact h2
    have hgd := ingest_getD key part hp src (List.replicate pcount [])
      (by simp) j hj
    rw [List.getD_eq_getElem _ _ h1, List.getD_eq_getElem _ _ (by simp [hj])] at hgd
    simp only [List.getElem_replicate, List.nil_append] at hgd
    rw [hgd]
    simp

end ShuffleWriteLemmas

/-- Claim C2: for a source partition of a shuffle-writing dataset, with at
least one destination bucket each ingested element `e` lands in bucket
`partitioner(key(e)) % pcount`, and with a combiner every non-empty
bucket is then replaced by a bucket built from `comb` of its contents.
The degenerate zero-bucket clause of the claim does not hold — see the
final conjunct: with zero buckets `_materialize` indexes `buckets[0]`
of an empty bucket list, an `IndexError`, instead of storing the
combined stream in a bucket 0. -/
theorem shuffle_write_semantics :
    (∀ (α κ : Type) (key : α → κ) (part : κ → Nat) (pcount : Nat) (src : List α),
      0 < pcount →
        shuffleWriteMaterialize pcount key part none none src =
          some ((List.range pcount).map
            (fun j => src.filter (fun e => part (key e) % pcount == j))))
    ∧ (∀ (α κ : Type) (key : α → κ) (part : κ → Nat) (pcount : Nat)
        (comb : List α → List α) (src : List α), 0 < pcount →
        shuffleWriteMaterialize pcount key part (some comb) none src =
          some ((List.range pcount).map (fun j =>
            let b := src.filter (fun e => part (key e) % pcount == j)
            if b.isEmpty then b else comb b)))
    ∧ shuffleWriteMaterialize 0 (fun n : Nat => n) (fun n => n)
        (some (fun l => l)) none [1] = none := by
  refine ⟨?_, ?_, by decide⟩
  · intro α κ key part pcount src hp
    simp only [shuffleWriteMaterialize, ensureBuckets, List.length_replicate]
    rw [if_pos (by omega)]
    rw [shuffleWrite_fresh_buckets key part hp src]
  · intro α κ key part pcount comb src hp
    simp only [shuffleWriteMaterialize, ensureBuckets, List.length_replicate]
    rw [if_pos (by omega)]
    rw [shuffleWrite_fresh_buckets key part hp src, List.map_map]
    rfl

/-- Witness for C2 at a concrete input: three buckets, identity key and
partitioner, no combiner — each element of `[1, 2, 3, 4, 5]` lands in
the bucket of its value mod 3. -/
theorem shuffle_write_semantics_witness :
    shuffleWriteMaterialize 3 (fun n : Nat => n) (fun n => n) none none [1, 2, 3, 4, 5]
      = some [[3], [1, 4], [2, 5]] := by
  rw [shuffle_write_semantics.1 Nat Nat (fun n => n) (fun n => n) 3 [1, 2, 3, 4, 5]
    (by decide)]
  decide

/-- Claim C3 (counterexample): `ShuffleWritingDataset.__init__` hardcodes
`self.bucket = ListBucket`, dropping the `bucket` argument — so when
`distinct` requests `SetBucket`, the writer-side buckets are still list
buckets, contradicting the claim that the writer allocates buckets of
the passed type. -/
theorem shuffle_bucket_type_ignored :
    (distinctShuffleWriter 4 none).bucket = BucketType.listBucket
    ∧ (distinctShuffleWriter 4 none).bucket ≠ BucketType.setBucket
    ∧ ∀ b : Option BucketType,
        (mkShuffleWritingDataset 4 none b true).bucket = BucketType.listBucket := by
  refine ⟨rfl, by decide, ?_⟩
  intro b
  rfl

theorem histogram_concrete :
    histogramInt [1, 2, 1, 3, 2, 4] 10 =
      some ([2, 0, 0, 2, 0, 0, 1, 0, 0, 1],
        [1, 13/10, 8/5, 19/10, 11/5, 5/2, 14/5, 31/10, 17/5, 37/10, 4]) := by
  have hmn : listMin [1, 2, 1, 3, 2, 4] ([1, 2, 1, 3, 2, 4].headD 0) = 1 := by
    norm_num [listMin, min_def]
  have hmx : listMax [1, 2, 1, 3, 2, 4] ([1, 2, 1, 3, 2, 4].headD 0) = 4 := by
    norm_num [listMax, max_def]
  have hnp : npHistogram [1, 2, 1, 3, 2, 4]
        [1, 13/10, 8/5, 19/10, 11/5, 5/2, 14/5, 31/10, 17/5, 37/10, 4]
      = [2, 0, 0, 2, 0, 0, 1, 0, 0, 1] := by
    norm_num [npHistogram, binCount, List.range_succ, List.filter_cons,
      decide_eq_true_eq, List.getD]
  have hstep : histogramInt [1, 2, 1, 3, 2, 4] 10 =
      some (npHistogram [1, 2, 1, 3, 2, 4]
          [1, 13/10, 8/5, 19/10, 11/5, 5/2, 14/5, 31/10, 17/5, 37/10, 4],
        [1, 13/10, 8/5, 19/10, 11/5, 5/2, 14/5, 31/10, 17/5, 37/10, 4]) := by
    simp only [histogramInt, hmn, hmx]
    norm_num [List.range_succ]
  rw [hstep, hnp]

/-- Claim C4 (counterexample): on `[1, 2, 1, 3, 2, 4]` the default
10-bin histogram's edges start at the dataset minimum 1, not at 0, so
the claimed `edges == [0..4]` in 10 equal steps fails; the actual value
is shown in full. -/
theorem histogram_edges_counterexample :
    histogramInt [1, 2, 1, 3, 2, 4] 10 =
      some ([2, 0, 0, 2, 0, 0, 1, 0, 0, 1],
        [1, 13/10, 8/5, 19/10, 11/5, 5/2, 14/5, 31/10, 17/5, 37/10, 4])
    ∧ ([1, 13/10, 8/5, 19/10, 11/5, 5/2, 14/5, 31/10, 17/5, 37/10, 4] : List ℚ)
        ≠ (List.range 11).map (fun i => (0 : ℚ) + i * ((4 - 0) / 10)) := by
  refine ⟨histogram_concrete, ?_⟩
  intro h
  have h0 := congrArg (fun l => l.headD (9 : ℚ)) h
  rw [show List.range 11 = [0, 1, 2, 3, 4, 5, 6, 7, 8, 9, 10] from rfl] at h0
  norm_num at h0

/-- Claim C4 as amended: `histogram()` on `[1, 2, 1, 3, 2, 4]` returns
`(hist, edges)` with the counts of `hist` summing to 6 and `edges`
running from 1 (the dataset minimum) to 4 in 10 equal steps of 3/10. -/
theorem histogram_sum_and_edges :
    ∃ hist edges, histogramInt [1, 2, 1, 3, 2, 4] 10 = some (hist, edges)
      ∧ hist.sum = 6
      ∧ edges.length = 11
      ∧ edges.headD 0 = 1
      ∧ edges.getLastD 0 = 4
      ∧ edges.Chain' (fun a b => b - a = 3/10) := by
  refine ⟨[2, 0, 0, 2, 0, 0, 1, 0, 0, 1],
    [1, 13/10, 8/5, 19/10, 11/5, 5/2, 14/5, 31/10, 17/5, 37/10, 4],
    histogram_concrete, by decide, by decide, rfl, rfl, ?_⟩
  norm_num [List.chain'_cons, List.chain'_singleton]

/-- Claim C7: when an RMI peer disconnects, every outstanding (pending)
request future in the peer's `req_id → future` handler table is failed
with `NotConnected`, and the handler table is cleared. -/
theorem rmi_disconnect_fails_outstanding (handlers : List (Nat × FutState))
    (h : ∀ p ∈ handlers, p.2 = FutState.pending) :
    disconnectRMI handlers =
      Except.ok (handlers.map (fun p => (p.1, FutState.failed NetErr.notConnected)),
        ([] : List (Nat × FutState))) := by
  unfold disconnectRMI
  have key : traverseE
      (fun h => (setException h.2 NetErr.notConnected).map (fun f => (h.1, f))) handlers
      = Except.ok (handlers.map (fun p => (p.1, FutState.failed NetErr.notConnected))) := by
    induction handlers with
    | nil => rfl
    | cons p t ih =>
      obtain ⟨n, fs⟩ := p
      have hfs : fs = FutState.pending := h (n, fs) (List.mem_cons_self _ _)
      subst hfs
      have ht := ih (fun q hq => h q (List.mem_cons_of_mem _ hq))
      simp only [traverseE]
      rw [ht]
      rfl
  rw [key]
  rfl

/-- Witness for C7: a table of two pending futures is failed with
`NotConnected` entirely, and the resulting table is empty. -/
theorem rmi_disconnect_fails_outstanding_witness :
    disconnectRMI [(0, FutState.pending), (1, FutState.pending)] =
      Except.ok ([(0, FutState.failed NetErr.notConnected),
                  (1, FutState.failed NetErr.notConnected)],
        ([] : List (Nat × FutState))) := by
  rw [rmi_disconnect_fails_outstanding [(0, FutState.pending), (1, FutState.pending)]
    (by decide)]
  rfl

/-- Claim C8: a registered accumulator update dispatches on `op` —
`+`, `-`, `*`, `/` apply the arithmetic operators, `<` and `>` the left
and right shifts, `&` and `|` the bitwise operators, and any other
string invokes the method named `op` on the value with `value` as its
argument — storing the updated value under the accumulator's id. -/
theorem accumulator_op_dispatch {V : Type} (ops : PyOps V) (locks : List String)
    (accs : List (String × V)) (aid : String) (v cur : V)
    (hl : aid ∈ locks) (ha : lookupA accs aid = some cur) :
    updateAccumulator ops locks accs aid "+" v = setA accs aid (ops.add cur v)
    ∧ updateAccumulator ops locks accs aid "-" v = setA accs aid (ops.sub cur v)
    ∧ updateAccumulator ops locks accs aid "*" v = setA accs aid (ops.mul cur v)
    ∧ updateAccumulator ops locks accs aid "/" v = setA accs aid (ops.div cur v)
    ∧ updateAccumulator ops locks accs aid "<" v = setA accs aid (ops.shl cur v)
    ∧ updateAccumulator ops locks accs aid ">" v = setA accs aid (ops.shr cur v)
    ∧ updateAccumulator ops locks accs aid "&" v = setA accs aid (ops.band cur v)
    ∧ updateAccumulator ops locks accs aid "|" v = setA accs aid (ops.bor cur v)
    ∧ ∀ op : String, op ∉ (["+", "-", "*", "/", "<", ">", "&", "|"] : List String) →
        updateAccumulator ops locks accs aid op v
          = setA accs aid (ops.callMethod op cur v) := by
  have base : ∀ op : String, updateAccumulator ops locks accs aid op v
      = setA accs aid (applyOp ops op cur v) := by
    intro op
    simp [updateAccumulator, updateAccumulatorBody, hl, ha]
  refine ⟨base "+", base "-", base "*", base "/", base "<", base ">", base "&", base "|",
    ?_⟩
  intro op hop
  simp only [List.mem_cons, List.not_mem_nil, or_false, not_or] at hop
  obtain ⟨h1, h2, h3, h4, h5, h6, h7, h8⟩ := hop
  rw [base op]
  simp [applyOp, h1, h2, h3, h4, h5, h6, h7, h8]

/-- Witness for C8: on an integer accumulator registered under id `a`
holding 5, a `+ 3` update stores 8. -/
theorem accumulator_op_dispatch_witness :
    updateAccumulator intOps ["a"] [("a", (5 : ℤ))] "a" "+" 3 = [("a", (8 : ℤ))] := by
  rw [(accumulator_op_dispatch intOps ["a"] [("a", (5 : ℤ))] "a" 3 5 (by decide) rfl).1]
  rfl

/-- Claim C9: an update whose accumulator id has no registered mutex is
logged and dropped — the accumulator map is returned unchanged, and the
handler (being a total function, mirroring the catch-all `except` of
the source) propagates no exception. -/
theorem accumulator_unknown_id_dropped {V : Type} (ops : PyOps V) (locks : List String)
    (accs : List (String × V)) (aid op : String) (v : V) (h : aid ∉ locks) :
    updateAccumulator ops locks accs aid op v = accs := by
  simp [updateAccumulator, updateAccumulatorBody, h]

/-- Witness for C9: an update for unregistered id `z` leaves the
accumulator map untouched. -/
theorem accumulator_unknown_id_dropped_witness :
    updateAccumulator intOps ["a"] [("a", (5 : ℤ))] "z" "+" 3 = [("a", (5 : ℤ))] :=
  accumulator_unknown_id_dropped intOps ["a"] [("a", (5 : ℤ))] "z" "+" 3 (by decide)

/-- Claim C10: `mark_done(result)` on a task that is already done is a
no-op — the future, stored result, start time and stop signal are
exactly those of the earlier completion, for every task state and every
later result value. -/
theorem mark_done_noop {ρ τ : Type} (s : TaskState ρ τ) (r : ρ) (now : τ)
    (h : s.isDone = true) : markDone s r now = s := by
  simp [markDone, h]

/-- Witness for C10: re-marking a task completed with result 7 using a
different result 9 changes nothing. -/
theorem mark_done_noop_witness :
    markDone (⟨some (TFut.result 7), some 0, true⟩ : TaskState ℕ ℕ) 9 1
      = ⟨some (TFut.result 7), some 0, true⟩ :=
  mark_done_noop _ 9 1 (by decide)

section FrameLemmas

theorem ebind_ok {ε α β : Type} (a : α) (f : α → Except ε β) :
    (Except.ok a >>= f) = f a := rfl

theorem readexactly_chunk (xs rest : List Nat) :
    readexactly xs.length (xs ++ rest) = Except.ok (xs, rest) := by
  unfold readexactly
  rw [List.take_left, List.drop_left]
  simp

theorem unpackLE_packU32 {n : Nat} (h : n < 2 ^ 32) : unpackLE (packU32 n) = n := by
  simp only [packU32, unpackLE, List.foldr]
  omega

theorem recvU32_chunk {n : Nat} (h : n < 2 ^ 32) (rest : List Nat) :
    recvU32 (packU32 n ++ rest) = Except.ok (n, rest) := by
  unfold recvU32
  rw [show (4 : Nat) = (packU32 n).length from rfl, readexactly_chunk]
  simp only [ebind_ok]
  rw [unpackLE_packU32 h]
  rfl

theorem recvAtts_chunk :
    ∀ (atts : List (List Nat × List Nat)) (rest : List Nat),
      (∀ kv ∈ atts, kv.1.length < 2 ^ 32 ∧ kv.2.length < 2 ^ 32) →
      recvAtts atts.length ((atts.map encodeAtt).flatten ++ rest)
        = Except.ok (atts, rest) := by
  intro atts
  induction atts with
  | nil => intro rest _; rfl
  | cons kv t ih =>
    intro rest h
    have hkv := h kv (List.mem_cons_self _ _)
    simp only [List.map_cons, List.flatten_cons, List.length_cons, List.append_assoc]
    have hdec : encodeAtt kv ++ ((t.map encodeAtt).flatten ++ rest)
        = packU32 kv.1.length ++ (kv.1 ++ (packU32 kv.2.length
            ++ (kv.2 ++ ((t.map encodeAtt).flatten ++ rest)))) := by
      simp [encodeAtt, List.append_assoc]
    rw [hdec]
    unfold recvAtts
    rw [recvU32_chunk hkv.1]
    simp only [ebind_ok]
    rw [readexactly_chunk kv.1]
    simp only [ebind_ok]
    rw [recvU32_chunk hkv.2]
    simp only [ebind_ok]
    rw [readexactly_chunk kv.2]
    simp only [ebind_ok]
    rw [ih _ (fun q hq => h q (List.mem_cons_of_mem _ hq))]
    rfl

end FrameLemmas

theorem epure_bind {e a b : Type} (x : a) (f : a → Except e b) :
    (pure x : Except e a) >>= f = f x := rfl

theorem readexactly_one (b : Nat) (s : List Nat) : readexactly 1 (b :: s) = Except.ok ([b], s) := rfl

example : ((0 : Nat) &&& 1 != 0) = false := by decide
example : ((3 : Nat) &&& 1 != 0) = true := by rfl

theorem frame_roundtrip (m : Bool) (atts : List (List Nat × List Nat)) (body : List Nat)
    (hc : atts.length < 2 ^ 32)
    (hkv : ∀ kv ∈ atts, kv.1.length < 2 ^ 32 ∧ kv.2.length < 2 ^ 32)
    (hb : body.length < 2 ^ 32) :
    ∀ rest, recvFrame true (sendFrame m atts body ++ rest)
      = Except.ok ((m, atts, body), rest) := by
  intro rest
  cases atts with
  | nil =>
    cases m with
    | false =>
      have hs : sendFrame false [] body ++ rest
          = 0 :: (packU32 body.length ++ (body ++ rest)) := by
        simp [sendFrame, List.append_assoc]
      rw [hs]
      unfold recvFrame
      rw [readexactly_one]
      simp only [ebind_ok, List.headD_cons, if_true]
      rw [if_neg (by decide)]
      simp only [epure_bind]
      rw [recvU32_chunk hb]
      simp only [ebind_ok]
      rw [readexactly_chunk body rest]
      simp only [ebind_ok]
      rfl
    | true =>
      have hs : sendFrame true [] body ++ rest
          = 1 :: (packU32 body.length ++ (body ++ rest)) := by
        simp [sendFrame, List.append_assoc]
      rw [hs]
      unfold recvFrame
      rw [readexactly_one]
      simp only [ebind_ok, List.headD_cons, if_true]
      rw [if_neg (by decide)]
      simp only [epure_bind]
      rw [recvU32_chunk hb]
      simp only [ebind_ok]
      rw [readexactly_chunk body rest]
      simp only [ebind_ok]
      rfl
  | cons kv t =>
    cases m with
    | false =>
      have hs : sendFrame false (kv :: t) body ++ rest
          = 2 :: (packU32 (kv :: t).length ++ (((kv :: t).map encodeAtt).flatten
              ++ (packU32 body.length ++ (body ++ rest)))) := by
        simp [sendFrame, List.append_assoc]
      rw [hs]
      unfold recvFrame
      rw [readexactly_one]
      simp only [ebind_ok, List.headD_cons, if_true]
      rw [if_pos (by decide)]
      rw [recvU32_chunk hc]
      simp only [ebind_ok]
      rw [recvAtts_chunk _ _ hkv]
      simp only [ebind_ok]
      rw [recvU32_chunk hb]
      simp only [ebind_ok]
      rw [readexactly_chunk body rest]
      simp only [ebind_ok]
      rfl
    | true =>
      have hs : sendFrame true (kv :: t) body ++ rest
          = 3 :: (packU32 (kv :: t).length ++ (((kv :: t).map encodeAtt).flatten
              ++ (packU32 body.length ++ (body ++ rest)))) := by
        simp [sendFrame, List.append_assoc]
      rw [hs]
      unfold recvFrame
      rw [readexactly_one]
      simp only [ebind_ok, List.headD_cons, if_true]
      rw [if_pos (by decide)]
      rw [recvU32_chunk hc]
      simp only [ebind_ok]
      rw [recvAtts_chunk _ _ hkv]
      simp only [ebind_ok]
      rw [recvU32_chunk hb]
      simp only [ebind_ok]
      rw [readexactly_chunk body rest]
      simp only [ebind_ok]
      rfl

/-- Witness for C5 at a concrete frame: one attachment under key
`[1, 2]` with bytes `[3, 4, 5]`, body `[9, 9]`, fast-codec flag set,
followed by two trailing stream bytes. -/
theorem frame_roundtrip_witness :
    recvFrame true (sendFrame true [([1, 2], [3, 4, 5])] [9, 9] ++ [7, 7])
      = Except.ok ((true, [([1, 2], [3, 4, 5])], [9, 9]), [7, 7]) :=
  frame_roundtrip true [([1, 2], [3, 4, 5])] [9, 9] (by decide) (by decide) (by decide)
    [7, 7]

/-- Claim C6: on a connection that is no longer connected, `send` and
`recv` raise `NotConnected`; and when a read ends mid-frame, the field
read (`readexactly`, through which `recv` reads every frame field)
raises `NotConnected` when zero bytes of the awaited field had arrived
and the incomplete-read protocol error when some but not all had. -/
theorem disconnected_and_truncated_reads :
    (∀ (m : Bool) (atts : List (List Nat × List Nat)) (body : List Nat),
      sendConn false m atts body = Except.error NetErr.notConnected)
    ∧ (∀ s, recvFrame false s = Except.error NetErr.notConnected)
    ∧ (∀ n (s : List Nat), s.length < n →
        readexactly n s = Except.error
          (if s.length = 0 then NetErr.notConnected else NetErr.incompleteRead)) := by
  refine ⟨fun m atts body => rfl, fun s => rfl, ?_⟩
  intro n s h
  unfold readexactly
  rw [List.take_of_length_le (le_of_lt h)]
  rw [if_neg (by omega)]
  by_cases hs : s.length = 0
  · rw [List.length_eq_zero] at hs
    subst hs
    rfl
  · have hne : s ≠ [] := fun e => hs (by rw [e]; rfl)
    simp [List.isEmpty_iff, hne, hs]

/-- Witness for C6: sending and receiving on a disconnected connection,
a field read hitting EOF with nothing read, and one hitting EOF with 2
of 4 bytes read. -/
theorem disconnected_and_truncated_reads_witness :
    sendConn false true [] [1] = Except.error NetErr.notConnected
    ∧ recvFrame false [0] = Except.error NetErr.notConnected
    ∧ readexactly 4 ([] : List Nat) = Except.error NetErr.notConnected
    ∧ readexactly 4 [1, 2] = Except.error NetErr.incompleteRead := by
  refine ⟨disconnected_and_truncated_reads.1 true [] [1],
    disconnected_and_truncated_reads.2.1 [0], ?_, ?_⟩
  · have h := disconnected_and_truncated_reads.2.2 4 [] (by decide)
    simpa using h
  · have h := disconnected_and_truncated_reads.2.2 4 [1, 2] (by decide)
    simpa using h

end Bndl
